import Mathlib

/-!
Verification of the core analysis pipeline of `spirited_away_analysis.py`:
character-mention extraction, segment-based sentiment scoring, word-cloud
text normalization, the authored relationship graph, and the summary report.

Strings are modelled as `List Char`; Python's `str.lower` is modelled on the
ASCII range (the only range the analysed operations distinguish).
-/

set_option maxHeartbeats 1000000

namespace Spirited

abbrev Str := List Char

/-- Character list of a Lean string literal, used to write concrete inputs. -/
def chars (s : String) : Str := s.data

/-- The ASCII uppercase-to-lowercase table. -/
def upperLower : List (Char × Char) :=
  [('A', 'a'), ('B', 'b'), ('C', 'c'), ('D', 'd'), ('E', 'e'), ('F', 'f'),
   ('G', 'g'), ('H', 'h'), ('I', 'i'), ('J', 'j'), ('K', 'k'), ('L', 'l'),
   ('M', 'm'), ('N', 'n'), ('O', 'o'), ('P', 'p'), ('Q', 'q'), ('R', 'r'),
   ('S', 's'), ('T', 't'), ('U', 'u'), ('V', 'v'), ('W', 'w'), ('X', 'x'),
   ('Y', 'y'), ('Z', 'z')]

/-- ASCII model of Python's `str.lower` on a single character. -/
def lowerChar (c : Char) : Char :=
  ((upperLower.find? (fun p => p.1 == c)).map Prod.snd).getD c

/-- Model of Python's `str.lower` on a whole string. -/
def lowerL (l : Str) : Str := l.map lowerChar

/-- Whitespace characters removed by Python's `str.strip`. -/
def pySpace (c : Char) : Bool :=
  c = ' ' || c = '\t' || c = '\n' || c = '\r' || c = '\x0b' || c = '\x0c'

/-- Model of Python's `str.strip`: drop whitespace from both ends. -/
def trim (l : Str) : Str :=
  ((l.dropWhile pySpace).reverse.dropWhile pySpace).reverse

/-- Model of Python's `str.startswith` (and a prefix test for substring search). -/
def hasPref : Str → Str → Bool
  | [], _ => true
  | _ :: _, [] => false
  | a :: as, b :: bs => a == b && hasPref as bs

/-- Model of Python's substring containment `needle in hay`. -/
def hasSub (needle : Str) : Str → Bool
  | [] => needle.isEmpty
  | c :: cs => hasPref needle (c :: cs) || hasSub needle cs

/-! ### Mention extraction (`extract_characters`, lines 41-62) -/

/-- Roster hard-coded in `extract_characters`. -/
def mainCharacters : List Str :=
  [chars "Chihiro", chars "Haku", chars "Yobaba", chars "Zeniba", chars "Rin",
   chars "No Face", chars "Grandpa Kama", chars "Mom", chars "Dad"]

/-- Line filter of `extract_characters`: the (already stripped) line is
non-empty and starts with neither a markup character. -/
def keptB (t : Str) : Bool :=
  !t.isEmpty && !hasPref (chars "<") t && !hasPref (chars "*") t

/-- Case-insensitive containment test of a roster name in a line. -/
def matchB (ch line : Str) : Bool :=
  hasSub (lowerL ch) (lowerL line)

/-- State of the extraction loop: per-character matching lines and counts. -/
abbrev ExtSt := (Str → List Str) × (Str → Nat)

/-- Inner loop of `extract_characters` over the roster for one kept line. -/
def processLine : List Str → Str → ExtSt → ExtSt
  | [], _, st => st
  | ch :: rest, line, st =>
    processLine rest line
      (if matchB ch line then
        (fun x => if x = ch then st.1 x ++ [line] else st.1 x,
         fun x => if x = ch then st.2 x + 1 else st.2 x)
      else st)

/-- Outer loop of `extract_characters` over the script lines. -/
def extractLoop (roster : List Str) : List Str → ExtSt → ExtSt
  | [], st => st
  | raw :: rest, st =>
    extractLoop roster rest
      (if keptB (trim raw) then processLine roster (trim raw) st else st)

/-- Model of `extract_characters` (parametrised by the roster the source
hard-codes as `main_characters`): returns `character_lines, character_count`. -/
def extractCharacters (roster lines : List Str) : ExtSt :=
  extractLoop roster lines (fun _ => [], fun _ => 0)

/-- Number of occurrences of a name in the roster list. -/
def countIn : List Str → Str → Nat
  | [], _ => 0
  | c :: r, ch => (if c = ch then 1 else 0) + countIn r ch

/-- Characterisation of the lines the extractor records for one character:
the trimmed script lines that pass the markup filter and match the name. -/
def mentionLines (lines : List Str) (ch : Str) : List Str :=
  (lines.map trim).filter (fun t => keptB t && matchB ch t)

/-! ### Sentiment analysis (`sentiment_analysis`, lines 137-174) -/

/-- Positive vocabulary hard-coded in `sentiment_analysis`. -/
def positiveWords : List Str :=
  [chars "good", chars "great", chars "wonderful", chars "beautiful",
   chars "happy", chars "love", chars "nice", chars "amazing",
   chars "fantastic", chars "excellent", chars "perfect", chars "thank",
   chars "thanks"]

/-- Negative vocabulary hard-coded in `sentiment_analysis`. -/
def negativeWords : List Str :=
  [chars "bad", chars "terrible", chars "awful", chars "sad", chars "angry",
   chars "hate", chars "horrible", chars "scary", chars "afraid",
   chars "worried", chars "sorry", chars "hurt", chars "pain", chars "die"]

/-- Model of Python's `' '.join`. -/
def joinSp : List Str → Str
  | [] => []
  | [l] => l
  | l :: ls => l ++ ' ' :: joinSp ls

/-- The text a segment is scored on: its lines joined by a space, lowercased. -/
def segText (seg : List Str) : Str := lowerL (joinSp seg)

/-- Model of `sum(1 for word in vocab if word in text)`: the number of
vocabulary words contained in the text (at most once per word). -/
def hitCount (vocab : List Str) (text : Str) : Nat :=
  (vocab.filter (fun w => hasSub w text)).length

/-- Start and end index of segment `i`: `start = i * (total // 10)`,
`end = start + segment_size if i < 9 else total_lines`. -/
def segmentBounds (total i : Nat) : Nat × Nat :=
  (i * (total / 10), if i < 9 then i * (total / 10) + total / 10 else total)

/-- The slice `lines[start:end]` of segment `i`. -/
def segmentLines (lines : List Str) (i : Nat) : List Str :=
  ((lines.drop (segmentBounds lines.length i).1).take
    ((segmentBounds lines.length i).2 - (segmentBounds lines.length i).1))

/-- Sentiment score of one segment:
`(pos - neg) / (pos + neg)` when some vocabulary word hit, else `0`. -/
def segmentScore (pos neg : List Str) (seg : List Str) : ℚ :=
  let text := segText seg
  let p := hitCount pos text
  let n := hitCount neg text
  if p + n > 0 then ((p : ℚ) - (n : ℚ)) / ((p : ℚ) + (n : ℚ)) else 0

/-- Model of `sentiment_analysis` (parametrised by the vocabularies the
source hard-codes): the ordered list of the 10 segment scores. -/
def sentimentScores (pos neg : List Str) (lines : List Str) : List ℚ :=
  (List.range 10).map (fun i => segmentScore pos neg (segmentLines lines i))

/-- `sentiment_analysis` with the source's hard-coded vocabularies. -/
def sentimentAnalysis (lines : List Str) : List ℚ :=
  sentimentScores positiveWords negativeWords lines

/-! ### Word-cloud text normalization (`create_wordcloud`, lines 67-71) -/

/-- Split a string at its first occurrence of the closing character:
`spanSplit cl cs = some (pre, post)` when `cs = pre ++ cl :: post` with
`cl ∉ pre`, and `none` when `cl ∉ cs`. -/
def spanSplit (cl : Char) : Str → Option (Str × Str)
  | [] => none
  | c :: cs =>
    if c = cl then some ([], cs)
    else (spanSplit cl cs).map (fun p => (c :: p.1, p.2))

/-- One left-to-right pass of `re.sub(op [^cl]+ cl, '', text)`: at an opening
character, a span is removed when a closing character follows with at least
one non-closing character in between; otherwise scanning moves on.  `fuel`
bounds the recursion; `fuel = length` always suffices. -/
def removeDelimFuel (op cl : Char) : Nat → Str → Str
  | 0, l => l
  | _ + 1, [] => []
  | fuel + 1, c :: cs =>
    if c = op then
      match spanSplit cl cs with
      | some (pre, post) =>
        if pre = [] then c :: removeDelimFuel op cl fuel cs
        else removeDelimFuel op cl fuel post
      | none => c :: removeDelimFuel op cl fuel cs
    else c :: removeDelimFuel op cl fuel cs

/-- Removal of all `op ... cl` markup spans, as `re.sub` with pattern
`op [^cl]+ cl` and empty replacement. -/
def removeDelim (op cl : Char) (l : Str) : Str :=
  removeDelimFuel op cl l.length l

/-- The word-cloud text computed by `create_wordcloud`: lowercase first,
then remove `<...>`, `*...*` and `[...]` spans, in that order. -/
def createWordcloudText (t : Str) : Str :=
  removeDelim '[' ']' (removeDelim '*' '*' (removeDelim '<' '>' (lowerL t)))

/-- The specification's pipeline order: remove the three span categories
first, then lowercase the remainder. -/
def specCleanText (t : Str) : Str :=
  lowerL (removeDelim '[' ']' (removeDelim '*' '*' (removeDelim '<' '>' t)))

/-! ### Relationship network (`create_character_network`, lines 202-230) -/

/-- Roster hard-coded in `create_character_network`. -/
def netCharacters : List String :=
  ["Chihiro", "Haku", "Yobaba", "Zeniba", "Rin", "No Face", "Grandpa Kama"]

/-- Authored relationship triples hard-coded in `create_character_network`. -/
def relationships : List (String × String × Nat) :=
  [("Chihiro", "Haku", 3), ("Chihiro", "Yobaba", 2), ("Chihiro", "Rin", 2),
   ("Chihiro", "No Face", 2), ("Chihiro", "Grandpa Kama", 1),
   ("Haku", "Yobaba", 2), ("Yobaba", "Zeniba", 1),
   ("Rin", "Grandpa Kama", 1), ("Chihiro", "Zeniba", 1)]

/-- Whether a stored edge joins the same unordered pair of nodes. -/
def sameEdge (a b : String) (t : String × String × Nat) : Bool :=
  (t.1 == a && t.2.1 == b) || (t.1 == b && t.2.1 == a)

/-- Model of `networkx.Graph.add_edge`: an existing edge on the same
unordered pair gets its weight updated, otherwise the edge is appended. -/
def addEdge (es : List (String × String × Nat)) (a b : String) (w : Nat) :
    List (String × String × Nat) :=
  if es.any (sameEdge a b) then
    es.map (fun t => if sameEdge a b t then (t.1, t.2.1, w) else t)
  else es ++ [(a, b, w)]

/-- The edge-adding loop of `create_character_network`: a triple is added
only when both endpoints belong to the roster. -/
def netLoop (roster : List String) :
    List (String × String × Nat) → List (String × String × Nat) →
    List (String × String × Nat)
  | [], es => es
  | t :: rest, es =>
    netLoop roster rest
      (if t.1 ∈ roster ∧ t.2.1 ∈ roster then addEdge es t.1 t.2.1 t.2.2 else es)

/-- Model of `create_character_network` (parametrised by roster and authored
triples): the graph's edge list, built from the empty graph. -/
def createNetwork (roster : List String) (rels : List (String × String × Nat)) :
    List (String × String × Nat) :=
  netLoop roster rels []

/-- `create_character_network` with the source's hard-coded roster and triples. -/
def createCharacterNetwork : List (String × String × Nat) :=
  createNetwork netCharacters relationships

/-- Degree of a node: the number of edges incident to it. -/
def degree (es : List (String × String × Nat)) (v : String) : Nat :=
  es.countP (fun t => t.1 == v || t.2.1 == v)

/-- Whether the graph has an edge on the unordered pair `{a, b}`. -/
def edgeMem (es : List (String × String × Nat)) (a b : String) : Bool :=
  es.any (sameEdge a b)

/-! ### Summary report (`generate_summary_report`, lines 262-289) -/

/-- The dict comprehension `{k: v for k, v in character_count.items() if v > 0}`
over the roster-ordered counts. -/
def filteredChars (lines : List Str) : List (Str × Nat) :=
  (mainCharacters.map
      (fun ch => (ch, (extractCharacters mainCharacters lines).2 ch))).filter
    (fun p => decide (0 < p.2))

/-- Model of Python's `max(d, key=d.get)`: the first key of maximal value,
raising `ValueError` on an empty dict. -/
def pyMaxKey : List (Str × Nat) → Except String Str
  | [] => Except.error "max() arg is an empty sequence"
  | p :: rest =>
    Except.ok (rest.foldl (fun b q => if b.2 < q.2 then q else b) p).1

/-- Stable insertion into a list sorted by descending count: the inserted
element goes before later elements of equal count. -/
def insertByCount (p : Str × Nat) : List (Str × Nat) → List (Str × Nat)
  | [] => [p]
  | q :: rest => if q.2 ≤ p.2 then p :: q :: rest else q :: insertByCount p rest

/-- Model of `sorted(items, key=lambda x: x[1], reverse=True)`. -/
def sortDesc : List (Str × Nat) → List (Str × Nat)
  | [] => []
  | p :: rest => insertByCount p (sortDesc rest)

/-- The data assembled by `generate_summary_report`. -/
structure Report where
  lineCount : Nat
  ranked : List (Str × Nat)
  topCharacter : Str
deriving DecidableEq

/-- Model of `generate_summary_report`: re-extracts the counts, filters the
zero-count characters, and queries the most active character with `max`,
which fails on an empty dict. -/
def generateSummaryReport (lines : List Str) : Except String Report :=
  match pyMaxKey (filteredChars lines) with
  | Except.error e => Except.error e
  | Except.ok top =>
    Except.ok ⟨lines.length, sortDesc (filteredChars lines), top⟩

/-! ### The specification's occurrence-counting reading of the scorer -/

/-- Number of substring occurrences of a word in a text (all start
positions where the word occurs). -/
def occCount (w text : Str) : Nat :=
  ((List.range (text.length + 1)).filter (fun i => hasPref w (text.drop i))).length

/-- Total occurrences of all vocabulary words in a text. -/
def occHits (vocab : List Str) (text : Str) : Nat :=
  (vocab.map (fun w => occCount w text)).sum

/-- The claim's reading of the segment score, with `pos_count`/`neg_count`
taken as total substring occurrences rather than per-word containment. -/
def occSegmentScore (pos neg : List Str) (seg : List Str) : ℚ :=
  let text := segText seg
  let p := occHits pos text
  let n := occHits neg text
  if p + n > 0 then ((p : ℚ) - (n : ℚ)) / ((p : ℚ) + (n : ℚ)) else 0

/-! ### Lemmas about the mention extractor -/

theorem processLine_cnt (line : Str) :
    ∀ (roster : List Str) (st : ExtSt) (ch : Str),
      (processLine roster line st).2 ch =
        st.2 ch + (if matchB ch line then countIn roster ch else 0) := by
  intro roster
  induction roster with
  | nil => intro st ch; simp [processLine, countIn]
  | cons a r ih =>
    intro st ch
    simp only [processLine, countIn]
    rw [ih]
    by_cases hca : ch = a
    · subst hca
      by_cases hm : matchB ch line <;> simp [hm] <;> omega
    · have hac : a ≠ ch := fun h => hca h.symm
      by_cases hm2 : matchB a line <;>
        by_cases hm : matchB ch line <;>
          simp [hm, hm2, hca, hac] <;> omega

theorem processLine_lns (line : Str) :
    ∀ (roster : List Str) (st : ExtSt) (ch : Str),
      (processLine roster line st).1 ch =
        st.1 ch ++
          List.replicate (if matchB ch line then countIn roster ch else 0) line := by
  intro roster
  induction roster with
  | nil => intro st ch; simp [processLine, countIn]
  | cons a r ih =>
    intro st ch
    simp only [processLine, countIn]
    rw [ih]
    by_cases hca : ch = a
    · subst hca
      by_cases hm : matchB ch line <;> simp [hm]
      rw [← List.replicate_succ, Nat.add_comm]
    · have hac : a ≠ ch := fun h => hca h.symm
      by_cases hm2 : matchB a line <;>
        by_cases hm : matchB ch line <;>
          simp [hm, hm2, hca, hac]

theorem extractLoop_cnt (roster : List Str) :
    ∀ (lines : List Str) (st : ExtSt) (ch : Str),
      (extractLoop roster lines st).2 ch =
        st.2 ch + countIn roster ch * (mentionLines lines ch).length := by
  intro lines
  induction lines with
  | nil => intro st ch; simp [extractLoop, mentionLines]
  | cons raw rest ih =>
    intro st ch
    simp only [extractLoop, mentionLines, List.map_cons, List.filter_cons]
    by_cases hk : keptB (trim raw)
    · rw [if_pos hk, ih, processLine_cnt]
      by_cases hm : matchB ch (trim raw)
      · simp only [mentionLines] at ih ⊢
        simp [hk, hm, Nat.mul_succ]
        omega
      · simp only [mentionLines] at ih ⊢
        simp [hk, hm]
    · rw [if_neg hk, ih]
      have hkf : keptB (trim raw) = false := by simpa using hk
      simp only [mentionLines]
      simp [hkf]

theorem extractLoop_lns (roster : List Str) :
    ∀ (lines : List Str) (st : ExtSt) (ch : Str),
      countIn roster ch = 1 →
      (extractLoop roster lines st).1 ch = st.1 ch ++ mentionLines lines ch := by
  intro lines
  induction lines with
  | nil => intro st ch _; simp [extractLoop, mentionLines]
  | cons raw rest ih =>
    intro st ch hc
    simp only [extractLoop, mentionLines, List.map_cons, List.filter_cons]
    by_cases hk : keptB (trim raw)
    · rw [if_pos hk, ih _ _ hc, processLine_lns]
      by_cases hm : matchB ch (trim raw)
      · simp only [mentionLines] at ih ⊢
        simp [hk, hm, hc]
      · simp only [mentionLines] at ih ⊢
        simp [hk, hm]
    · rw [if_neg hk, ih _ _ hc]
      have hkf : keptB (trim raw) = false := by simpa using hk
      simp only [mentionLines]
      simp [hkf]

theorem extractCharacters_cnt (roster lines : List Str) (ch : Str) :
    (extractCharacters roster lines).2 ch =
      countIn roster ch * (mentionLines lines ch).length := by
  unfold extractCharacters
  rw [extractLoop_cnt]
  simp

theorem extractCharacters_lns (roster lines : List Str) (ch : Str)
    (hc : countIn roster ch = 1) :
    (extractCharacters roster lines).1 ch = mentionLines lines ch := by
  unfold extractCharacters
  rw [extractLoop_lns roster lines _ ch hc]
  rfl

theorem countIn_mainCharacters (ch : Str) (h : ch ∈ mainCharacters) :
    countIn mainCharacters ch = 1 := by
  simp only [mainCharacters, List.mem_cons, List.not_mem_nil, or_false] at h
  rcases h with rfl | rfl | rfl | rfl | rfl | rfl | rfl | rfl | rfl <;> decide

/-! ### Lemmas about the word-cloud normalization -/

theorem lowerChar_fix (d : Char) (h1 : ∀ p ∈ upperLower, p.1 ≠ d)
    (h2 : ∀ p ∈ upperLower, p.2 ≠ d) : ∀ c, lowerChar c = d ↔ c = d := by
  intro c
  constructor
  · intro h
    unfold lowerChar at h
    cases hf : upperLower.find? (fun p => p.1 == c) with
    | none => rw [hf] at h; exact h
    | some p =>
      rw [hf] at h
      exact absurd h (h2 p (List.mem_of_find?_eq_some hf))
  · intro h
    rw [h]
    unfold lowerChar
    have hn : upperLower.find? (fun p => p.1 == d) = none := by
      rw [List.find?_eq_none]
      intro p hp
      simp only [beq_iff_eq]
      exact h1 p hp
    rw [hn]
    rfl

theorem spanSplit_lower (cl : Char) (hcl : ∀ c, lowerChar c = cl ↔ c = cl) :
    ∀ l : Str, spanSplit cl (lowerL l) =
      (spanSplit cl l).map (fun p => (lowerL p.1, lowerL p.2)) := by
  intro l
  induction l with
  | nil => rfl
  | cons a as ih =>
    simp only [lowerL, List.map_cons, spanSplit]
    by_cases ha : a = cl
    · rw [if_pos ((hcl a).mpr ha), if_pos ha]
      rfl
    · rw [if_neg (fun h => ha ((hcl a).mp h)), if_neg ha]
      rw [show List.map lowerChar as = lowerL as from rfl, ih]
      cases spanSplit cl as <;> rfl

theorem removeDelimFuel_lower (op cl : Char)
    (hop : ∀ c, lowerChar c = op ↔ c = op)
    (hcl : ∀ c, lowerChar c = cl ↔ c = cl) :
    ∀ (fuel : Nat) (l : Str),
      removeDelimFuel op cl fuel (lowerL l) =
        lowerL (removeDelimFuel op cl fuel l) := by
  intro fuel
  induction fuel with
  | zero => intro l; rfl
  | succ f ih =>
    intro l
    cases l with
    | nil => rfl
    | cons c cs =>
      simp only [lowerL, List.map_cons, removeDelimFuel]
      by_cases hc : c = op
      · rw [if_pos ((hop c).mpr hc), if_pos hc]
        rw [show List.map lowerChar cs = lowerL cs from rfl,
          spanSplit_lower cl hcl cs]
        cases hsp : spanSplit cl cs with
        | none =>
          simp only [Option.map_none']
          rw [show (lowerChar c :: removeDelimFuel op cl f (lowerL cs) : Str) =
            lowerChar c :: removeDelimFuel op cl f (lowerL cs) from rfl, ih cs]
          rfl
        | some p =>
          simp only [Option.map_some']
          by_cases hp : p.1 = []
          · have h1 : (lowerL p.1 : Str) = [] := by rw [hp]; rfl
            obtain ⟨p1, p2⟩ := p
            simp only at hp h1
            rw [hp] at hsp ⊢
            simp only [h1, if_pos rfl, ih cs]
            rfl
          · have h1 : (lowerL p.1 : Str) ≠ [] := by
              intro h
              exact hp (List.map_eq_nil.mp h)
            obtain ⟨p1, p2⟩ := p
            simp only at hp h1 ⊢
            rw [if_neg h1, if_neg hp, ih p2]
            rfl
      · rw [if_neg (fun h => hc ((hop c).mp h)), if_neg hc]
        rw [show List.map lowerChar cs = lowerL cs from rfl, ih cs]
        rfl

theorem removeDelim_lower (op cl : Char)
    (hop : ∀ c, lowerChar c = op ↔ c = op)
    (hcl : ∀ c, lowerChar c = cl ↔ c = cl) (l : Str) :
    removeDelim op cl (lowerL l) = lowerL (removeDelim op cl l) := by
  unfold removeDelim
  rw [show (lowerL l).length = l.length from List.length_map l lowerChar]
  exact removeDelimFuel_lower op cl hop hcl l.length l

/-! ### Lemmas about the relationship network -/

theorem addEdge_endpoints (es : List (String × String × Nat)) (a b : String)
    (w : Nat) (t : String × String × Nat) (ht : t ∈ addEdge es a b w) :
    (∃ u ∈ es, t.1 = u.1 ∧ t.2.1 = u.2.1) ∨ (t.1 = a ∧ t.2.1 = b) := by
  unfold addEdge at ht
  by_cases h : es.any (sameEdge a b)
  · rw [if_pos h] at ht
    obtain ⟨u, hu, hut⟩ := List.mem_map.mp ht
    by_cases hs : sameEdge a b u
    · rw [if_pos hs] at hut
      exact Or.inl ⟨u, hu, by rw [← hut], by rw [← hut]⟩
    · rw [if_neg hs] at hut
      exact Or.inl ⟨u, hu, by rw [← hut], by rw [← hut]⟩
  · rw [if_neg h] at ht
    rcases List.mem_append.mp ht with h1 | h1
    · exact Or.inl ⟨t, h1, rfl, rfl⟩
    · rcases List.mem_singleton.mp h1 with rfl
      exact Or.inr ⟨rfl, rfl⟩

theorem netLoop_endpoints (roster : List String) :
    ∀ (rels es : List (String × String × Nat)),
      (∀ t ∈ es, t.1 ∈ roster ∧ t.2.1 ∈ roster) →
      ∀ t ∈ netLoop roster rels es, t.1 ∈ roster ∧ t.2.1 ∈ roster := by
  intro rels
  induction rels with
  | nil => intro es hes t ht; exact hes t ht
  | cons r rest ih =>
    intro es hes t ht
    simp only [netLoop] at ht
    by_cases hr : r.1 ∈ roster ∧ r.2.1 ∈ roster
    · rw [if_pos hr] at ht
      refine ih _ ?_ t ht
      intro u hu
      rcases addEdge_endpoints es r.1 r.2.1 r.2.2 u hu with ⟨v, hv, h1, h2⟩ | ⟨h1, h2⟩
      · rw [h1, h2]; exact hes v hv
      · rw [h1, h2]; exact hr
    · rw [if_neg hr] at ht
      exact ih _ hes t ht

theorem createNetwork_endpoints (roster : List String)
    (rels : List (String × String × Nat)) (t : String × String × Nat)
    (ht : t ∈ createNetwork roster rels) : t.1 ∈ roster ∧ t.2.1 ∈ roster :=
  netLoop_endpoints roster rels [] (by intro u hu; cases hu) t ht

theorem addEdge_edgeMem_mono (es : List (String × String × Nat))
    (a b x y : String) (w : Nat) (h : edgeMem es a b = true) :
    edgeMem (addEdge es x y w) a b = true := by
  unfold edgeMem at h ⊢
  unfold addEdge
  obtain ⟨t, ht, hst⟩ := List.any_eq_true.mp h
  by_cases hx : es.any (sameEdge x y)
  · rw [if_pos hx]
    refine List.any_eq_true.mpr ?_
    refine ⟨if sameEdge x y t then (t.1, t.2.1, w) else t, List.mem_map_of_mem _ ht, ?_⟩
    by_cases hs : sameEdge x y t
    · rw [if_pos hs]
      unfold sameEdge at hst ⊢
      exact hst
    · rw [if_neg hs]
      exact hst
  · rw [if_neg hx]
    exact List.any_eq_true.mpr ⟨t, List.mem_append_left _ ht, hst⟩

theorem addEdge_edgeMem_self (es : List (String × String × Nat))
    (a b : String) (w : Nat) : edgeMem (addEdge es a b w) a b = true := by
  unfold edgeMem addEdge
  by_cases hx : es.any (sameEdge a b)
  · rw [if_pos hx]
    obtain ⟨t, ht, hst⟩ := List.any_eq_true.mp hx
    refine List.any_eq_true.mpr ?_
    refine ⟨if sameEdge a b t then (t.1, t.2.1, w) else t, List.mem_map_of_mem _ ht, ?_⟩
    rw [if_pos hst]
    unfold sameEdge at hst ⊢
    exact hst
  · rw [if_neg hx]
    refine List.any_eq_true.mpr ?_
    refine ⟨(a, b, w), List.mem_append_right _ (List.mem_singleton.mpr rfl), ?_⟩
    unfold sameEdge
    simp

theorem netLoop_edgeMem_mono (roster : List String) :
    ∀ (rels es : List (String × String × Nat)) (a b : String),
      edgeMem es a b = true → edgeMem (netLoop roster rels es) a b = true := by
  intro rels
  induction rels with
  | nil => intro es a b h; exact h
  | cons r rest ih =>
    intro es a b h
    simp only [netLoop]
    by_cases hr : r.1 ∈ roster ∧ r.2.1 ∈ roster
    · rw [if_pos hr]
      exact ih _ a b (addEdge_edgeMem_mono es a b r.1 r.2.1 r.2.2 h)
    · rw [if_neg hr]
      exact ih _ a b h

theorem netLoop_adds (roster : List String) :
    ∀ (rels es : List (String × String × Nat)) (t : String × String × Nat),
      t ∈ rels → t.1 ∈ roster → t.2.1 ∈ roster →
      edgeMem (netLoop roster rels es) t.1 t.2.1 = true := by
  intro rels
  induction rels with
  | nil => intro es t ht; cases ht
  | cons r rest ih =>
    intro es t ht h1 h2
    simp only [netLoop]
    rcases List.mem_cons.mp ht with rfl | hmem
    · rw [if_pos ⟨h1, h2⟩]
      exact netLoop_edgeMem_mono roster rest _ t.1 t.2.1
        (addEdge_edgeMem_self es t.1 t.2.1 t.2.2)
    · exact ih _ t hmem h1 h2

theorem createNetwork_adds (roster : List String)
    (rels : List (String × String × Nat)) (t : String × String × Nat)
    (ht : t ∈ rels) (h1 : t.1 ∈ roster) (h2 : t.2.1 ∈ roster) :
    edgeMem (createNetwork roster rels) t.1 t.2.1 = true :=
  netLoop_adds roster rels [] t ht h1 h2

/-! ### Lemmas about the segment partition and the score -/

theorem segmentLines_length_le8 (lines : List Str) (i : Nat) (hi : i < 9) :
    (segmentLines lines i).length = lines.length / 10 := by
  unfold segmentLines segmentBounds
  rw [if_pos hi]
  simp only [List.length_take, List.length_drop]
  have h10 : lines.length / 10 * 10 ≤ lines.length := Nat.div_mul_le_self _ 10
  have hmul : i * (lines.length / 10) ≤ 8 * (lines.length / 10) :=
    Nat.mul_le_mul_right _ (by omega)
  omega

theorem segmentLines_length_9 (lines : List Str) :
    (segmentLines lines 9).length = lines.length - 9 * (lines.length / 10) := by
  unfold segmentLines segmentBounds
  rw [if_neg (by omega : ¬ (9 : Nat) < 9)]
  simp only [List.length_take, List.length_drop]
  omega

theorem segmentLines_sum (lines : List Str) :
    ((List.range 10).map (fun i => (segmentLines lines i).length)).sum =
      lines.length := by
  rw [show List.range 10 = [0, 1, 2, 3, 4, 5, 6, 7, 8, 9] from by decide]
  simp only [List.map_cons, List.map_nil, List.sum_cons, List.sum_nil]
  rw [segmentLines_length_le8 lines 0 (by omega),
    segmentLines_length_le8 lines 1 (by omega),
    segmentLines_length_le8 lines 2 (by omega),
    segmentLines_length_le8 lines 3 (by omega),
    segmentLines_length_le8 lines 4 (by omega),
    segmentLines_length_le8 lines 5 (by omega),
    segmentLines_length_le8 lines 6 (by omega),
    segmentLines_length_le8 lines 7 (by omega),
    segmentLines_length_le8 lines 8 (by omega),
    segmentLines_length_9 lines]
  have h10 : lines.length / 10 * 10 ≤ lines.length := Nat.div_mul_le_self _ 10
  omega

theorem segmentScore_bounds (pos neg : List Str) (seg : List Str) :
    -1 ≤ segmentScore pos neg seg ∧ segmentScore pos neg seg ≤ 1 := by
  unfold segmentScore
  set p := hitCount pos (segText seg) with hp
  set n := hitCount neg (segText seg) with hn
  by_cases h : p + n > 0
  · rw [if_pos h]
    have hd : (0 : ℚ) < (p : ℚ) + (n : ℚ) := by
      have : (0 : ℚ) < ((p + n : Nat) : ℚ) := by exact_mod_cast h
      push_cast at this
      linarith
    have hnn : (0 : ℚ) ≤ (n : ℚ) := Nat.cast_nonneg n
    have hpn : (0 : ℚ) ≤ (p : ℚ) := Nat.cast_nonneg p
    constructor
    · rw [le_div_iff hd]
      linarith
    · rw [div_le_one hd]
      linarith
  · rw [if_neg h]
    norm_num

/-! ### Claim theorems -/

/-- C1, counterexample: on a script in which no roster character is
mentioned, `generate_summary_report` does not complete; the `max` query on
the empty filtered dict fails (Python's `ValueError`), so the report neither
omits the top-character line nor prints a fallback message. -/
theorem claim_C1_counterexample :
    generateSummaryReport [chars "hello world"] =
      Except.error "max() arg is an empty sequence" := by
  rfl

/-- C1, amended: if every roster character has zero mentions, the report
generation fails on the undefined maximum query (modelled as the
`ValueError` of `max` on an empty sequence) instead of completing. -/
theorem claim_C1_amended (lines : List Str)
    (h : ∀ ch ∈ mainCharacters, (extractCharacters mainCharacters lines).2 ch = 0) :
    generateSummaryReport lines = Except.error "max() arg is an empty sequence" := by
  have hf : filteredChars lines = [] := by
    unfold filteredChars
    rw [List.filter_eq_nil]
    intro p hp
    obtain ⟨ch, hch, rfl⟩ := List.mem_map.mp hp
    simp only [decide_eq_true_eq, not_lt]
    rw [h ch hch]
  unfold generateSummaryReport
  rw [hf]
  rfl

/-- C1, witness for the amended claim at a concrete mention-free script. -/
theorem claim_C1_witness :
    generateSummaryReport [chars "spirit world"] =
      Except.error "max() arg is an empty sequence" :=
  claim_C1_amended [chars "spirit world"] (by decide)

/-- C2: the scorer partitions `[0, total)` into 10 segments with
`segment_size = total / 10`: segments 0-8 span `[i*size, (i+1)*size)`,
segment 9 spans `[9*size, total)`; consecutive bounds meet, the segment
lengths always sum to `total`, and for `total < 10` segments 0-8 are empty
while segment 9 holds every line. -/
theorem claim_C2_segment_partition (lines : List Str) :
    (∀ i : Fin 9, segmentBounds lines.length i.val =
      (i.val * (lines.length / 10), (i.val + 1) * (lines.length / 10))) ∧
    segmentBounds lines.length 9 = (9 * (lines.length / 10), lines.length) ∧
    (∀ i : Fin 9, (segmentBounds lines.length i.val).2 =
      (segmentBounds lines.length (i.val + 1)).1) ∧
    ((List.range 10).map (fun i => (segmentLines lines i).length)).sum =
      lines.length ∧
    (lines.length < 10 →
      (∀ i : Fin 9, segmentLines lines i.val = []) ∧
      segmentLines lines 9 = lines) := by
  refine ⟨?_, ?_, ?_, segmentLines_sum lines, ?_⟩
  · intro i
    unfold segmentBounds
    rw [if_pos i.isLt, Nat.succ_mul]
  · unfold segmentBounds
    rw [if_neg (by omega : ¬ (9 : Nat) < 9)]
  · intro i
    unfold segmentBounds
    rw [if_pos i.isLt]
    by_cases h9 : i.val + 1 < 9
    · rw [if_pos h9]
      simp [Nat.succ_mul]
    · rw [if_neg h9]
      simp [Nat.succ_mul]
  · intro h
    have hs : lines.length / 10 = 0 := Nat.div_eq_of_lt h
    constructor
    · intro i
      unfold segmentLines segmentBounds
      rw [if_pos i.isLt]
      simp [hs]
    · unfold segmentLines segmentBounds
      rw [if_neg (by omega : ¬ (9 : Nat) < 9)]
      simp [hs]

/-- C2, witness: the degenerate partition on a concrete 3-line script. -/
theorem claim_C2_witness :
    segmentLines [chars "a", chars "b", chars "c"] 3 = [] ∧
    segmentLines [chars "a", chars "b", chars "c"] 9 =
      [chars "a", chars "b", chars "c"] :=
  ⟨((claim_C2_segment_partition [chars "a", chars "b", chars "c"]).2.2.2.2
      (by decide)).1 ⟨3, by omega⟩,
   ((claim_C2_segment_partition [chars "a", chars "b", chars "c"]).2.2.2.2
      (by decide)).2⟩

/-- C3, counterexample: on the segment text "good good bad" with vocabularies
`{good}` / `{bad}`, the code scores 0 (each vocabulary word is counted at
most once via containment), while counting substring occurrences as the
claim states would give (2-1)/(2+1) = 1/3. -/
theorem claim_C3_counterexample :
    segmentScore [chars "good"] [chars "bad"] [chars "good good bad"] = 0 ∧
    occSegmentScore [chars "good"] [chars "bad"] [chars "good good bad"] = 1 / 3 ∧
    segmentScore [chars "good"] [chars "bad"] [chars "good good bad"] ≠
      occSegmentScore [chars "good"] [chars "bad"] [chars "good good bad"] := by
  have h1 : hitCount [chars "good"] (segText [chars "good good bad"]) = 1 := by decide
  have h2 : hitCount [chars "bad"] (segText [chars "good good bad"]) = 1 := by decide
  have h3 : occHits [chars "good"] (segText [chars "good good bad"]) = 2 := by decide
  have h4 : occHits [chars "bad"] (segText [chars "good good bad"]) = 1 := by decide
  have hs : segmentScore [chars "good"] [chars "bad"] [chars "good good bad"] = 0 := by
    simp only [segmentScore, h1, h2]
    norm_num
  have ho : occSegmentScore [chars "good"] [chars "bad"] [chars "good good bad"] = 1 / 3 := by
    simp only [occSegmentScore, h3, h4]
    norm_num
  refine ⟨hs, ho, ?_⟩
  rw [hs, ho]
  norm_num

/-- C3, amended: `pos_count` and `neg_count` are the numbers of positive and
negative vocabulary words contained as substrings in the lowercased
space-joined segment text, each word contributing at most once however often
it occurs; the score is `(pos-neg)/(pos+neg)` when the denominator is
nonzero, else 0; on "this is good and bad" with `{good}` / `{bad}` the score
is 0. -/
theorem claim_C3_amended :
    (∀ (pos neg : List Str) (seg : List Str),
        segmentScore pos neg seg =
          if hitCount pos (segText seg) + hitCount neg (segText seg) > 0 then
            ((hitCount pos (segText seg) : ℚ) - (hitCount neg (segText seg) : ℚ)) /
              ((hitCount pos (segText seg) : ℚ) + (hitCount neg (segText seg) : ℚ))
          else 0) ∧
    (∀ (vocab : List Str) (text : Str), hitCount vocab text ≤ vocab.length) ∧
    segmentScore [chars "good"] [chars "bad"] [chars "this is good and bad"] = 0 := by
  refine ⟨fun pos neg seg => rfl, fun vocab text => List.length_filter_le _ _, ?_⟩
  have h1 : hitCount [chars "good"] (segText [chars "this is good and bad"]) = 1 := by
    decide
  have h2 : hitCount [chars "bad"] (segText [chars "this is good and bad"]) = 1 := by
    decide
  simp only [segmentScore, h1, h2]
  norm_num

/-- C4: every one of the 10 sentiment scores lies in [-1, 1], and a segment
with zero positive and zero negative vocabulary hits scores exactly 0 (the
division is guarded). -/
theorem claim_C4_score_range :
    (∀ (pos neg lines : List Str) (q : ℚ),
        q ∈ sentimentScores pos neg lines → -1 ≤ q ∧ q ≤ 1) ∧
    (∀ (pos neg : List Str) (seg : List Str),
        hitCount pos (segText seg) = 0 → hitCount neg (segText seg) = 0 →
        segmentScore pos neg seg = 0) := by
  constructor
  · intro pos neg lines q hq
    obtain ⟨i, _, rfl⟩ := List.mem_map.mp hq
    exact segmentScore_bounds pos neg _
  · intro pos neg seg h1 h2
    simp only [segmentScore, h1, h2]
    norm_num

/-- C4, witness at a concrete empty configuration: 0 is among the scores and
is within the bounds, and a hit-free segment scores 0. -/
theorem claim_C4_witness :
    ((-1 : ℚ) ≤ 0 ∧ (0 : ℚ) ≤ 1) ∧
    segmentScore [] [] [chars "quiet night"] = 0 :=
  ⟨claim_C4_score_range.1 [] [] [] 0 (by decide),
   claim_C4_score_range.2 [] [] [chars "quiet night"] (by decide) (by decide)⟩

/-- C5: the extractor's count for a roster character equals the number of
script lines that, after trimming, are non-empty, do not start with a markup
character, and contain the name case-insensitively; "  Haku walks in.  "
counts for Haku, while "<Haku enters>" counts for nobody. -/
theorem claim_C5_line_filter :
    (∀ (lines : List Str) (ch : Str), ch ∈ mainCharacters →
        (extractCharacters mainCharacters lines).2 ch =
          (mentionLines lines ch).length) ∧
    (extractCharacters mainCharacters [chars "  Haku walks in.  "]).2
      (chars "Haku") = 1 ∧
    (∀ ch : Str,
      (extractCharacters mainCharacters [chars "<Haku enters>"]).2 ch = 0) := by
  refine ⟨?_, by decide, ?_⟩
  · intro lines ch h
    rw [extractCharacters_cnt, countIn_mainCharacters ch h, Nat.one_mul]
  · intro ch
    rw [extractCharacters_cnt]
    have hml : mentionLines [chars "<Haku enters>"] ch = [] := by
      have hk : keptB (trim (chars "<Haku enters>")) = false := by decide
      simp [mentionLines, hk]
    rw [hml]
    simp

/-- C5, witness: the general count characterisation at a concrete line. -/
theorem claim_C5_witness :
    (extractCharacters mainCharacters [chars "Haku!"]).2 (chars "Haku") =
      (mentionLines [chars "Haku!"] (chars "Haku")).length :=
  claim_C5_line_filter.1 [chars "Haku!"] (chars "Haku") (by decide)

/-- C6: one processed line increments a (non-duplicated) roster character's
count by at most one, however often the name occurs in the line, while one
line may increment several characters; on the four-line example the counts
are Chihiro = 1 and Haku = 2. -/
theorem claim_C6_once_per_line :
    (∀ (roster : List Str) (line : Str) (st : ExtSt) (ch : Str),
        countIn roster ch ≤ 1 →
        (processLine roster line st).2 ch ≤ st.2 ch + 1) ∧
    (extractCharacters [chars "Chihiro", chars "Haku"]
        [chars "Chihiro sees Haku.", chars "", chars "*stage direction*",
         chars "Haku is gone."]).2 (chars "Chihiro") = 1 ∧
    (extractCharacters [chars "Chihiro", chars "Haku"]
        [chars "Chihiro sees Haku.", chars "", chars "*stage direction*",
         chars "Haku is gone."]).2 (chars "Haku") = 2 := by
  refine ⟨?_, by decide, by decide⟩
  intro roster line st ch hc
  rw [processLine_cnt]
  by_cases hm : matchB ch line
  · rw [if_pos hm]
    omega
  · rw [if_neg hm]
    omega

/-- C6, witness: a line containing a name twice still increments at most once. -/
theorem claim_C6_witness :
    (processLine [chars "Haku"] (chars "Haku meets Haku")
        ((fun _ => [], fun _ => 0) : ExtSt)).2 (chars "Haku") ≤ 0 + 1 :=
  claim_C6_once_per_line.1 [chars "Haku"] (chars "Haku meets Haku")
    ((fun _ => [], fun _ => 0) : ExtSt) (chars "Haku") (by decide)

/-- C7: at the extractor's output, each roster character's count equals the
length of its recorded matching-line sequence, and that sequence is a
sublist of the trimmed script lines, hence in script order. -/
theorem claim_C7_record_invariant (lines : List Str) (ch : Str)
    (h : ch ∈ mainCharacters) :
    (extractCharacters mainCharacters lines).2 ch =
      ((extractCharacters mainCharacters lines).1 ch).length ∧
    List.Sublist ((extractCharacters mainCharacters lines).1 ch)
      (lines.map trim) := by
  have hc := countIn_mainCharacters ch h
  rw [extractCharacters_lns mainCharacters lines ch hc, extractCharacters_cnt,
    hc, Nat.one_mul]
  exact ⟨rfl, List.filter_sublist _⟩

/-- C7, witness at a concrete one-line script. -/
theorem claim_C7_witness :
    (extractCharacters mainCharacters [chars "Rin!"]).2 (chars "Rin") =
      ((extractCharacters mainCharacters [chars "Rin!"]).1 (chars "Rin")).length ∧
    List.Sublist ((extractCharacters mainCharacters [chars "Rin!"]).1 (chars "Rin"))
      ([chars "Rin!"].map trim) :=
  claim_C7_record_invariant [chars "Rin!"] (chars "Rin") (by decide)

/-- C8: every edge of the built graph has both endpoints in the roster, every
authored triple with both endpoints in the roster yields an edge on that
unordered pair, and the example graph over {A, B, C} has degrees 1, 2, 1. -/
theorem claim_C8_graph_filter :
    (∀ (roster : List String) (rels : List (String × String × Nat))
        (t : String × String × Nat), t ∈ createNetwork roster rels →
        t.1 ∈ roster ∧ t.2.1 ∈ roster) ∧
    (∀ (roster : List String) (rels : List (String × String × Nat))
        (t : String × String × Nat), t ∈ rels → t.1 ∈ roster → t.2.1 ∈ roster →
        edgeMem (createNetwork roster rels) t.1 t.2.1 = true) ∧
    degree (createNetwork ["A", "B", "C"] [("A", "B", 3), ("B", "C", 1)]) "A" = 1 ∧
    degree (createNetwork ["A", "B", "C"] [("A", "B", 3), ("B", "C", 1)]) "B" = 2 ∧
    degree (createNetwork ["A", "B", "C"] [("A", "B", 3), ("B", "C", 1)]) "C" = 1 :=
  ⟨createNetwork_endpoints, createNetwork_adds, by decide, by decide, by decide⟩

/-- C8, witness: an authored in-roster triple produces its edge concretely. -/
theorem claim_C8_witness :
    edgeMem (createNetwork ["A", "B", "C"] [("A", "B", 3), ("B", "C", 1)])
      "A" "B" = true :=
  claim_C8_graph_filter.2.1 ["A", "B", "C"] [("A", "B", 3), ("B", "C", 1)]
    ("A", "B", 3) (by decide) (by decide) (by decide)

/-- C9: lowercasing first and then removing the three markup-span categories
(as the code does) yields the same normalized word-cloud text as removing
the spans first and then lowercasing (as the spec words it). -/
theorem claim_C9_normalize_order (t : Str) :
    createWordcloudText t = specCleanText t := by
  unfold createWordcloudText specCleanText
  rw [removeDelim_lower '<' '>'
      (lowerChar_fix '<' (by decide) (by decide))
      (lowerChar_fix '>' (by decide) (by decide)) t,
    removeDelim_lower '*' '*'
      (lowerChar_fix '*' (by decide) (by decide))
      (lowerChar_fix '*' (by decide) (by decide)),
    removeDelim_lower '[' ']'
      (lowerChar_fix '[' (by decide) (by decide))
      (lowerChar_fix ']' (by decide) (by decide))]

/-- C10: the core analyses are pure functions, so two runs on identical
script text and identical configuration produce identical mention records,
sentiment scores, and relationship graphs. -/
theorem claim_C10_deterministic
    (lines lines' roster roster' pos pos' neg neg' : List Str)
    (rosterN rosterN' : List String) (rels rels' : List (String × String × Nat))
    (h1 : lines = lines') (h2 : roster = roster') (h3 : pos = pos')
    (h4 : neg = neg') (h5 : rosterN = rosterN') (h6 : rels = rels') :
    extractCharacters roster lines = extractCharacters roster' lines' ∧
    sentimentScores pos neg lines = sentimentScores pos' neg' lines' ∧
    createNetwork rosterN rels = createNetwork rosterN' rels' := by
  subst h1 h2 h3 h4 h5 h6
  exact ⟨rfl, rfl, rfl⟩

/-- C10, witness at a concrete run repeated twice. -/
theorem claim_C10_witness :
    extractCharacters [chars "Haku"] [chars "hi"] =
      extractCharacters [chars "Haku"] [chars "hi"] ∧
    sentimentScores positiveWords negativeWords [chars "hi"] =
      sentimentScores positiveWords negativeWords [chars "hi"] ∧
    createNetwork netCharacters relationships =
      createNetwork netCharacters relationships :=
  claim_C10_deterministic [chars "hi"] [chars "hi"] [chars "Haku"] [chars "Haku"]
    positiveWords positiveWords negativeWords negativeWords
    netCharacters netCharacters relationships relationships
    rfl rfl rfl rfl rfl rfl

end Spirited
